import Mathlib

/-!
Shallow embedding of the music-queue engine (`src/queue.rs`, `src/item.rs`,
`src/util.rs`).

The queue is generic over the item type: the Rust `QueueItem<I, C>` is never
inspected by the queue logic beyond being stored and returned, so we embed it
as an opaque type parameter `α`.

Machine integers: all indices are Rust `usize` values that stay far below
2^64 in every state the claims quantify over (they are bounded by list
lengths), so they are embedded as `Nat`. The source's `self.items.len() - 1`
is `Nat` truncated subtraction here; the two agree whenever the queue is
playing a non-empty store, which holds in every reachable state of the
public API (the only way `current_item` becomes `Some` is construction from
a non-empty list).

Partiality: Rust indexing `v[i]` panics when out of bounds, and `todo!()`
aborts. Operations that can hit such a spot return `Option` (`none` =
panic/abort); operations that cannot are total.

Randomness: `rand`'s `slice.shuffle(&mut rng)` replaces a slice by some
permutation of it, and `shuffled_vec(n)` builds `(0..n).collect()` and
shuffles it in place. Both are embedded by passing the random outcome
explicitly as a function `f : List ℕ → List ℕ`; theorems that need the
rng contract assume `∀ xs, f xs ~ xs` (the result is a permutation of the
input), and every concrete instantiation may pick e.g. `f = id`, a
legitimate outcome of the real shuffle.
-/

namespace MusicQueue

/-- Embeds `QueueError` from `src/queue.rs`. -/
inductive QueueError where
  | ReachedBeginning
  | ReachedEnd
  | NotPlaying
deriving DecidableEq

/-- Embeds `RepeatMode` from `src/queue.rs`. -/
inductive RepeatMode where
  | All
  | Container
  | Item
deriving DecidableEq

/-- Embeds `UnshuffleStrategy` from `src/queue.rs`. -/
inductive UnshuffleStrategy where
  | PlayUnplayed
  | KeepIndex
  | KeepRawIndex
  | FromBeginning
deriving DecidableEq

/-- The `OldQueue<I, C>` struct from `src/queue.rs`; item type opaque as `α`.
All fields in source order. -/
structure OldQueue (α : Type) where
  history : List ℕ
  history_index : Option ℕ
  repeat_status : Option RepeatMode
  unshuffle_strat : UnshuffleStrategy
  shuffle_order : Option (List ℕ)
  current_next_up_item : Option ℕ
  next_up_items : List α
  current_item : Option ℕ
  items : List α
deriving DecidableEq

variable {α : Type}

/-- Embeds `impl From<Vec<QueueItem<I, C>>> for OldQueue` (`src/queue.rs` lines 93-107). -/
def fromItems (items : List α) : OldQueue α :=
  { history := []
    history_index := none
    repeat_status := none
    unshuffle_strat := UnshuffleStrategy.PlayUnplayed
    shuffle_order := none
    current_next_up_item := none
    next_up_items := []
    current_item := if items.isEmpty then none else some 0
    items := items }

/-- Embeds `OldQueue::next` (`src/queue.rs` lines 129-163).  `none` = panic (the only
indexing is `shuffle_indices[*index]` when pushing to history while shuffled). -/
def next (q : OldQueue α) : Option (Except QueueError Unit × OldQueue α) :=
  match q.current_item with
  | some index =>
    match q.history_index with
    | some history_index =>
      if history_index + 1 = index then
        -- Caught back up to the present
        some (Except.ok (), { q with history_index := none })
      else
        -- Still inside history
        some (Except.ok (), { q with history_index := some (history_index + 1) })
    | none =>
      -- Not in history, playing normally
      if index < q.items.length - 1 then
        match q.shuffle_order with
        | some shuffle_indices =>
          match shuffle_indices.get? index with
          | some v =>
            some (Except.ok (),
              { q with history := q.history ++ [v], current_item := some (index + 1) })
          | none => none
        | none =>
          some (Except.ok (),
            { q with history := q.history ++ [index], current_item := some (index + 1) })
      else
        some (Except.error QueueError.ReachedEnd, q)
  | none => some (Except.error QueueError.NotPlaying, q)

/-- Embeds `OldQueue::previous` (`src/queue.rs` lines 167-189).  Total: it performs no
indexing, only bounds-checked decrements. -/
def previous (q : OldQueue α) : Except QueueError Unit × OldQueue α :=
  match q.current_item with
  | some index =>
    match q.history_index with
    | some history_index =>
      -- User already listening to history.
      if 0 < history_index then
        (Except.ok (), { q with history_index := some (history_index - 1) })
      else
        (Except.error QueueError.ReachedBeginning, q)
    | none =>
      -- User went back for the first time.
      if 0 < index then
        (Except.ok (), { q with history_index := some (index - 1) })
      else
        (Except.error QueueError.ReachedBeginning, q)
  | none => (Except.error QueueError.NotPlaying, q)

/-- Embeds `OldQueue::get_current_item` (`src/queue.rs` lines 198-216).  `none` = panic
on an out-of-bounds `history`/`shuffle_order`/`items` index. -/
def get_current_item (q : OldQueue α) : Option (Except QueueError α) :=
  match q.current_item with
  | some index =>
    match q.history_index with
    | some history_index =>
      match q.history.get? history_index with
      | some r => (q.items.get? r).map Except.ok
      | none => none
    | none =>
      match q.shuffle_order with
      | some shuffle_indices =>
        match shuffle_indices.get? index with
        | some r => (q.items.get? r).map Except.ok
        | none => none
      | none => (q.items.get? index).map Except.ok
  | none => some (Except.error QueueError.NotPlaying)

/-- Embeds the assignment `v[i] = x` on a `Vec`: succeeds only when `i` is within the CURRENT length
(a `Vec::with_capacity` vector has length 0), else panics (`none`). -/
def setIdx (l : List α) (i : ℕ) (a : α) : Option (List α) :=
  if i < l.length then some (l.set i a) else none

/-- Embeds `OldQueue::get_items` (`src/queue.rs` lines 218-251), returning the items by
value (the source returns references).  `none` = panic.  The not-playing,
shuffled branch is the source's `items[index] = &self.items[shuffle_indices[index]]`
loop, which assigns into the not-yet-populated result vector — faithful here as
`setIdx` into the empty accumulator, evaluating the right-hand side first as
Rust does. -/
def get_items (q : OldQueue α) : Option (List α) :=
  match q.current_item with
  | some index =>
    (q.history.mapM (fun i => q.items.get? i)).bind fun played =>
    match q.shuffle_order with
    | some shuffle_indices =>
      ((List.range' index (shuffle_indices.length - index)).mapM
        (fun i => (shuffle_indices.get? i).bind fun r => q.items.get? r)).map
        fun rest => played ++ rest
    | none =>
      ((List.range' index (q.items.length - index)).mapM
        (fun i => q.items.get? i)).map
        fun rest => played ++ rest
  | none =>
    match q.shuffle_order with
    | some shuffle_indices =>
      (List.range q.items.length).foldlM
        (fun acc i =>
          (shuffle_indices.get? i).bind fun r =>
          (q.items.get? r).bind fun a => setIdx acc i a)
        []
    | none => some q.items

/-- Embeds `OldQueue::len` (`src/queue.rs` lines 253-256). -/
def len (q : OldQueue α) : ℕ :=
  q.items.length

/-- Embeds `OldQueue::shuffle` (`src/queue.rs` lines 308-327).  `f` is the random
outcome of `slice.shuffle(&mut rng)` / of `shuffled_vec` (which collects
`0..n` and shuffles it in place, hence `f (List.range n)`). -/
def shuffle (f : List ℕ → List ℕ) (q : OldQueue α) : OldQueue α :=
  match q.current_item with
  | some index =>
    if index < q.items.length - 1 then
      match q.shuffle_order with
      | some shuffle_indices =>
        let l := shuffle_indices.take (index + 1) ++ f (shuffle_indices.drop (index + 1))
        { q with shuffle_order := some l }
      | none =>
        let shuffle_indices := List.range q.items.length
        let l := shuffle_indices.take (index + 1) ++ f (shuffle_indices.drop (index + 1))
        { q with shuffle_order := some l }
    else q
  | none => { q with shuffle_order := some (f (List.range q.items.length)) }

/-- Embeds `OldQueue::queue` (`src/queue.rs` lines 258-268): push the item; only when
playing AND shuffled, push the new raw index onto the permutation and reshuffle. -/
def queue (f : List ℕ → List ℕ) (item : α) (q : OldQueue α) : OldQueue α :=
  let q := { q with items := q.items ++ [item] }
  match q.current_item with
  | some _ =>
    match q.shuffle_order with
    | some shuffle_indices =>
      shuffle f { q with shuffle_order := some (shuffle_indices ++ [shuffle_indices.length]) }
    | none => q
  | none => q

/-- Embeds `OldQueue::queue_next` (`src/queue.rs` lines 270-272). -/
def queue_next (item : α) (q : OldQueue α) : OldQueue α :=
  { q with next_up_items := q.next_up_items ++ [item] }

/-- Embeds `OldQueue::clear` (`src/queue.rs` lines 275-278): empties `items` and resets
`current_item` only; `history`, `history_index`, `shuffle_order`,
`next_up_items` are all left as they were. -/
def clear (q : OldQueue α) : OldQueue α :=
  { q with items := [], current_item := none }

/-- Embeds `OldQueue::is_shuffled` (`src/queue.rs` lines 281-284). -/
def is_shuffled (q : OldQueue α) : Bool :=
  q.shuffle_order.isSome

/-- Embeds `OldQueue::is_playing` (`src/queue.rs` lines 372-375). -/
def is_playing (q : OldQueue α) : Bool :=
  q.current_item.isSome

/-- Embeds `OldQueue::unshuffle` (`src/queue.rs` lines 331-361).  `slice.sort()` on a
`usize` slice is embedded as `List.insertionSort (· ≤ ·)` (both produce the
unique ascending reordering).  The `KeepIndex` and `FromBeginning` strategies
are `todo!()` in the source, i.e. they abort: `none`.  `KeepRawIndex` writes
`shuffle_indices[i] = i` for each suffix position, panicking (`none`) when `i`
is out of the permutation's bounds. -/
def unshuffle (q : OldQueue α) : Option (OldQueue α) :=
  match q.current_item with
  | some index =>
    match q.shuffle_order with
    | some shuffle_indices =>
      match q.unshuffle_strat with
      | UnshuffleStrategy.PlayUnplayed =>
        if index ≠ q.items.length - 1 then
          let l := shuffle_indices.take (index + 1) ++
            List.insertionSort (· ≤ ·) (shuffle_indices.drop (index + 1))
          some { q with shuffle_order := some l }
        else some q
      | UnshuffleStrategy.KeepIndex => none
      | UnshuffleStrategy.KeepRawIndex =>
        ((List.range' (index + 1) (q.items.length - (index + 1))).foldlM
          (fun acc i => setIdx acc i i) shuffle_indices).map
          fun l => { q with shuffle_order := some l }
      | UnshuffleStrategy.FromBeginning => none
    | none => some q
  | none => some { q with shuffle_order := none }

/-- Embeds `OldQueue::toggle_shuffle` (`src/queue.rs` lines 364-370). -/
def toggle_shuffle (f : List ℕ → List ℕ) (q : OldQueue α) : Option (OldQueue α) :=
  if q.shuffle_order.isSome then unshuffle q else some (shuffle f q)

/-- States reachable from a constructed queue by the public operations named in
the claims: `next`, `previous`, `clear`, `shuffle`, `unshuffle`,
`toggle_shuffle`, `queue`, `queue_next` (the remaining listed operations
`get_current_item`, `get_items`, `len` take `&self` and mutate nothing).
Operations that can panic only yield a successor state when they return. -/
inductive Reachable : OldQueue α → Prop where
  | init (items : List α) : Reachable (fromItems items)
  | next {q : OldQueue α} {r q'} :
      Reachable q → next q = some (r, q') → Reachable q'
  | previous {q : OldQueue α} :
      Reachable q → Reachable (previous q).2
  | clear {q : OldQueue α} :
      Reachable q → Reachable (clear q)
  | shuffle {q : OldQueue α} (f) :
      Reachable q → Reachable (shuffle f q)
  | unshuffle {q q' : OldQueue α} :
      Reachable q → unshuffle q = some q' → Reachable q'
  | toggle_shuffle {q q' : OldQueue α} (f) :
      Reachable q → toggle_shuffle f q = some q' → Reachable q'
  | queue {q : OldQueue α} (f item) :
      Reachable q → Reachable (queue f item q)
  | queue_next {q : OldQueue α} (item) :
      Reachable q → Reachable (queue_next item q)

/-! ### Iterated navigation (used to state the boundary claims) -/

/-- Runs `k` successive calls of `previous`; `none` as soon as one call returns an
error, `some` of the final state when every call succeeded. -/
def repeatPrev : ℕ → OldQueue α → Option (OldQueue α)
  | 0, q => some q
  | k + 1, q =>
    match previous q with
    | (Except.ok _, q') => repeatPrev k q'
    | (Except.error _, _) => none

/-- Runs `k` successive calls of `next`; `none` as soon as one call returns an error
or panics, `some` of the final state when every call succeeded. -/
def repeatNext : ℕ → OldQueue α → Option (OldQueue α)
  | 0, q => some q
  | k + 1, q =>
    match next q with
    | some (Except.ok _, q') => repeatNext k q'
    | _ => none

/-! ### Concrete states referenced by individual claims -/

/-- The run `OldQueue::from(vec![a, b]); next(); previous(); clear()`.
The intermediate state after `next` is written out so that reachability can be
checked by `rfl` against `next`. -/
def c1_state : OldQueue ℕ :=
  clear (previous { fromItems [10, 20] with history := [0], current_item := some 1 }).2

/-- A stopped queue holding one item while a shuffle order is present
(the claim's "Stopped-while-shuffled" case). -/
def c4_state : OldQueue ℕ :=
  { history := []
    history_index := none
    repeat_status := none
    unshuffle_strat := UnshuffleStrategy.PlayUnplayed
    shuffle_order := some [0]
    current_next_up_item := none
    next_up_items := []
    current_item := none
    items := [7] }

/-- The run `OldQueue::from(vec![]); shuffle(); queue(7)`: a reachable
stopped-while-shuffled state (the stale permutation `[]` no longer matches the
store length 1). -/
def c4_reached : OldQueue ℕ :=
  queue id 7 (shuffle id (fromItems ([] : List ℕ)))

/-! ### Claims -/

/-- Claim C1 (code bug evaluation).  The claim asserts that after any sequence
of the public operations, whenever `history_index` is `Some` it satisfies
`0 ≤ history_index < live edge`.  The run `from(vec![a, b]); next();
previous(); clear()` is a counterexample: `clear` resets only `items` and
`current_item`, leaving `history_index = Some 0` behind while the live edge is
`None`, so no live-edge value bounds it.  The spec itself (§9 open question b)
states that a full reset is the intended behavior of `clear`, so the claim is
right and the source's `clear` is the slip. -/
theorem c1_clear_leaves_history_index :
    Reachable c1_state ∧ c1_state.history = [0] ∧ c1_state.history_index = some 0 ∧
    c1_state.current_item = none ∧
    ¬ (∀ k, c1_state.history_index = some k →
        ∃ e, c1_state.current_item = some e ∧ k < e) := by
  refine ⟨?_, rfl, rfl, rfl, ?_⟩
  · exact Reachable.clear (Reachable.previous (Reachable.next (Reachable.init [10, 20]) rfl))
  · intro h
    obtain ⟨e, he, _⟩ := h 0 rfl
    exact Option.noConfusion (show (none : Option ℕ) = some e from he)

/-- Claim C4 (code bug evaluation).  `get_items` on a stopped queue with a
present shuffle order writes `items[index] = ...` into a result vector created
with `Vec::with_capacity` (length 0), an out-of-bounds assignment for any
store of length ≥ 1: the call panics (`none`) instead of returning a length-`n`
sequence.  This holds both for a well-formed stopped-while-shuffled state
(`c4_state`) and for a state actually reached through the public operations
(`c4_reached`). -/
theorem c4_get_items_out_of_bounds :
    (c4_state.current_item = none ∧ c4_state.shuffle_order = some [0] ∧
      c4_state.items.length = 1 ∧ get_items c4_state = none) ∧
    (Reachable c4_reached ∧ c4_reached.current_item = none ∧
      c4_reached.shuffle_order = some [] ∧ c4_reached.items.length = 1 ∧
      get_items c4_reached = none) := by
  refine ⟨⟨rfl, rfl, rfl, rfl⟩, ?_, rfl, rfl, rfl, rfl⟩
  exact Reachable.queue id 7 (Reachable.shuffle id (Reachable.init []))

/-- Claim C8 (code bug evaluation).  `queue_next` only pushes onto
`next_up_items`; `next` and `get_current_item` never read `next_up_items`, so
after `queue_next(30)` on a queue playing `[10, 20]` at position 0, the next
successful `next()` makes `get_current_item()` return the main-store item `20`
instead of the short-term item `30`.  The repository's own test
`queue_next_single_items_simple` asserts the claim's behavior, so the claim is
right and the code's missing wiring is the bug. -/
theorem c8_queue_next_not_wired :
    ∃ q', next (queue_next 30 (fromItems [10, 20] : OldQueue ℕ)) = some (Except.ok (), q') ∧
      q'.next_up_items = [30] ∧ get_current_item q' = some (Except.ok 20) ∧ (20 : ℕ) ≠ 30 :=
  ⟨_, rfl, rfl, rfl, by decide⟩

/-- Claim C10.  Whenever `next` or `previous` returns an error
(`NotPlaying`, `ReachedBeginning` or `ReachedEnd`), the returned state is
exactly the input state: every error branch of the source returns before any
field is assigned.  `get_current_item` takes `&self` in the source and is a
pure function here, so it cannot mutate any state at all. -/
theorem c10_errors_are_atomic (q : OldQueue α) (e : QueueError) (q' : OldQueue α) :
    (next q = some (Except.error e, q') → q' = q) ∧
    (previous q = (Except.error e, q') → q' = q) := by
  constructor
  · intro h
    unfold next at h
    repeat' split at h
    all_goals simp_all
  · intro h
    unfold previous at h
    repeat' split at h
    all_goals simp_all

/-- Witness for C10: on a stopped queue, `next` fails with `NotPlaying` and the
theorem yields that the state is unchanged. -/
theorem c10_witness :
    next (fromItems ([] : List ℕ)) =
      some (Except.error QueueError.NotPlaying, fromItems ([] : List ℕ)) ∧
    fromItems ([] : List ℕ) = fromItems ([] : List ℕ) :=
  ⟨rfl, (c10_errors_are_atomic (fromItems ([] : List ℕ)) QueueError.NotPlaying
    (fromItems ([] : List ℕ))).1 rfl⟩

/-- Modelled from the spec: the Repeat Controller (§4.6) applied when `next()`
would otherwise fail `ReachedEnd`.  What is missing from `src/`: `RepeatMode`
and the `repeat_status` field are declared in `src/queue.rs`, but no code under
`src/` ever reads `repeat_status`; the spec (§9, open question a) says the
repeat behaviors "have no executable reference in the given source".  This is
the source's `next` with the `ReachedEnd` branch replaced per §4.6: `All`
resets the live edge to 0 and, if shuffled, produces a fresh permutation of
the whole store (random outcome `f`) and succeeds; `Item` (and `Container`,
which for an opaque item behaves like `Item`) restarts the current position
with no live-edge change; absent repeat fails `ReachedEnd`. -/
def next_with_repeat (f : List ℕ → List ℕ) (q : OldQueue α) :
    Option (Except QueueError Unit × OldQueue α) :=
  match q.current_item with
  | some index =>
    match q.history_index with
    | some history_index =>
      if history_index + 1 = index then
        some (Except.ok (), { q with history_index := none })
      else
        some (Except.ok (), { q with history_index := some (history_index + 1) })
    | none =>
      if index < q.items.length - 1 then
        match q.shuffle_order with
        | some shuffle_indices =>
          match shuffle_indices.get? index with
          | some v =>
            some (Except.ok (),
              { q with history := q.history ++ [v], current_item := some (index + 1) })
          | none => none
        | none =>
          some (Except.ok (),
            { q with history := q.history ++ [index], current_item := some (index + 1) })
      else
        match q.repeat_status with
        | some RepeatMode.All =>
          let so := q.shuffle_order.map fun _ => f (List.range q.items.length)
          some (Except.ok (), { q with current_item := some 0, shuffle_order := so })
        | some _ => some (Except.ok (), q)
        | none => some (Except.error QueueError.ReachedEnd, q)
  | none => some (Except.error QueueError.NotPlaying, q)

/-- Claim C9 (against the spec-modelled repeat-aware `next`, see
`next_with_repeat`).  At the live edge on the last position: with repeat `All`
the call succeeds, resets the live edge to 0 and, when shuffled, installs a
fresh whole-store permutation; with no repeat mode the call fails
`ReachedEnd` and leaves the state unchanged. -/
theorem c9_repeat_all_wraps (q : OldQueue α) (f : List ℕ → List ℕ) (n : ℕ)
    (hn : 1 ≤ n) (hlen : q.items.length = n) (hcur : q.current_item = some (n - 1))
    (hhist : q.history_index = none) :
    (q.repeat_status = some RepeatMode.All →
      ∃ q', next_with_repeat f q = some (Except.ok (), q') ∧
        q'.current_item = some 0 ∧ q'.items = q.items ∧
        (∀ l, q.shuffle_order = some l → q'.shuffle_order = some (f (List.range n))) ∧
        (q.shuffle_order = none → q'.shuffle_order = none)) ∧
    (q.repeat_status = none →
      next_with_repeat f q = some (Except.error QueueError.ReachedEnd, q)) := by
  have hlt : ¬ (n - 1 < q.items.length - 1) := by omega
  constructor
  · intro hr
    refine ⟨{ q with current_item := some 0, shuffle_order := q.shuffle_order.map fun _ => f (List.range q.items.length) },
      ?_, rfl, rfl, ?_, ?_⟩
    · simp only [next_with_repeat, hcur, hhist, hr, if_neg hlt]
    · intro l hl
      simp [hl, hlen]
    · intro hl
      simp [hl]
  · intro hr
    simp only [next_with_repeat, hcur, hhist, hr, if_neg hlt]

/-- A two-item queue at the live edge on its last position with repeat `All`
set: the concrete input for the C9 witness. -/
def c9_state : OldQueue ℕ :=
  { fromItems [1, 2] with
      history := [0]
      current_item := some 1
      repeat_status := some RepeatMode.All }

/-- Witness for C9 at `c9_state` (and, for the absent-repeat half, at the same
state with `repeat_status := none`). -/
theorem c9_witness :
    (1 ≤ 2 ∧ c9_state.items.length = 2 ∧ c9_state.current_item = some 1 ∧
      c9_state.repeat_status = some RepeatMode.All) ∧
    (∃ q', next_with_repeat id c9_state = some (Except.ok (), q') ∧
      q'.current_item = some 0 ∧ q'.items = c9_state.items ∧
      (∀ l, c9_state.shuffle_order = some l → q'.shuffle_order = some (id (List.range 2))) ∧
      (c9_state.shuffle_order = none → q'.shuffle_order = none)) ∧
    ({ c9_state with repeat_status := none }.repeat_status = none ∧
      next_with_repeat id { c9_state with repeat_status := none } =
        some (Except.error QueueError.ReachedEnd, { c9_state with repeat_status := none })) :=
  ⟨⟨by decide, rfl, rfl, rfl⟩,
    (c9_repeat_all_wraps c9_state id 2 (by decide) rfl rfl rfl).1 rfl,
    rfl,
    (c9_repeat_all_wraps { c9_state with repeat_status := none } id 2
      (by decide) rfl rfl rfl).2 rfl⟩

/-- Claim C6.  With strategy `PlayUnplayed`: on a playing, shuffled queue at
position `p < n - 1`, `unshuffle` replaces the permutation by its prefix
`0..=p` unchanged followed by the suffix sorted ascending; at `p = n - 1` it is
a no-op; when not playing it removes the permutation entirely. -/
theorem c6_unshuffle_play_unplayed (q : OldQueue α)
    (hstrat : q.unshuffle_strat = UnshuffleStrategy.PlayUnplayed) :
    (∀ p l, q.current_item = some p → q.shuffle_order = some l →
      l.length = q.items.length → p + 1 < q.items.length →
      unshuffle q = some { q with shuffle_order := some (l.take (p + 1) ++ List.insertionSort (· ≤ ·) (l.drop (p + 1))) } ∧
      (l.take (p + 1) ++ List.insertionSort (· ≤ ·) (l.drop (p + 1))).take (p + 1) =
        l.take (p + 1) ∧
      List.Perm ((l.take (p + 1) ++ List.insertionSort (· ≤ ·) (l.drop (p + 1))).drop (p + 1))
        (l.drop (p + 1)) ∧
      List.Sorted (· ≤ ·)
        ((l.take (p + 1) ++ List.insertionSort (· ≤ ·) (l.drop (p + 1))).drop (p + 1))) ∧
    (∀ p, q.current_item = some p → p = q.items.length - 1 → unshuffle q = some q) ∧
    (q.current_item = none → unshuffle q = some { q with shuffle_order := none }) := by
  refine ⟨?_, ?_, ?_⟩
  · intro p l hcur hso hlen hp
    have hne : p ≠ q.items.length - 1 := by omega
    have htl : (l.take (p + 1)).length = p + 1 := by
      simp [List.length_take]
      omega
    refine ⟨?_, ?_, ?_, ?_⟩
    · simp only [unshuffle, hcur, hso, hstrat, if_pos hne]
    · exact List.take_left' htl
    · rw [List.drop_left' htl]
      exact List.perm_insertionSort _ _
    · rw [List.drop_left' htl]
      exact List.sorted_insertionSort _ _
  · intro p hcur hp
    rcases hso : q.shuffle_order with _ | l
    · simp [unshuffle, hcur, hso]
    · simp [unshuffle, hcur, hso, hstrat, hp]
  · intro hcur
    simp [unshuffle, hcur]

/-- The literal C6 example: 8 items, permutation `[5, 2, 7, 1, 0, 3, 4, 6]`,
live edge at logical position 0. -/
def c6_state : OldQueue ℕ :=
  { fromItems [0, 1, 2, 3, 4, 5, 6, 7] with shuffle_order := some [5, 2, 7, 1, 0, 3, 4, 6] }

/-- Witness for C6 at the claim's literal example: `unshuffle` yields
permutation `[5, 0, 1, 2, 3, 4, 6, 7]`. -/
theorem c6_witness :
    c6_state.unshuffle_strat = UnshuffleStrategy.PlayUnplayed ∧
    c6_state.current_item = some 0 ∧
    unshuffle c6_state = some { c6_state with shuffle_order := some [5, 0, 1, 2, 3, 4, 6, 7] } := by
  refine ⟨rfl, rfl, ?_⟩
  have h := ((c6_unshuffle_play_unplayed c6_state rfl).1 0 [5, 2, 7, 1, 0, 3, 4, 6]
    rfl rfl rfl (by decide)).1
  exact h.trans (by decide)

/-- Claim C5.  For every random outcome `f` (any function that permutes its
input, the contract of `slice::shuffle`): when not playing, `shuffle` installs
a permutation of `0..n` over the whole store; when playing at `p` with
`p + 1 < n`, the result is a permutation of `0..n` whose entries at every
position `i ≤ p` are unchanged (the identity permutation being synthesized
first when none existed); when playing at the last position `p + 1 = n`,
`shuffle` leaves the state entirely unchanged. -/
theorem c5_shuffle_bijection (q : OldQueue α) (f : List ℕ → List ℕ)
    (hf : ∀ xs, List.Perm (f xs) xs)
    (hperm : q.shuffle_order = none ∨
      ∃ l, q.shuffle_order = some l ∧ List.Perm l (List.range q.items.length)) :
    (q.current_item = none →
      (shuffle f q).shuffle_order = some (f (List.range q.items.length)) ∧
      List.Perm (f (List.range q.items.length)) (List.range q.items.length)) ∧
    (∀ p, q.current_item = some p → p + 1 < q.items.length →
      ∃ l', (shuffle f q).shuffle_order = some l' ∧
        List.Perm l' (List.range q.items.length) ∧
        (∀ l, q.shuffle_order = some l → ∀ i, i ≤ p → l'.get? i = l.get? i) ∧
        (q.shuffle_order = none → ∀ i, i ≤ p → l'.get? i = some i)) ∧
    (∀ p, q.current_item = some p → p + 1 = q.items.length → shuffle f q = q) := by
  refine ⟨?_, ?_, ?_⟩
  · intro hcur
    exact ⟨by simp [shuffle, hcur], hf _⟩
  · intro p hcur hp
    have hlt : p < q.items.length - 1 := by omega
    rcases hperm with hso | ⟨l, hso, hl⟩
    · -- no permutation: the identity (range n) is synthesized, then the suffix shuffled
      refine ⟨(List.range q.items.length).take (p + 1) ++
          f ((List.range q.items.length).drop (p + 1)), ?_, ?_, ?_, ?_⟩
      · simp [shuffle, hcur, hso, if_pos hlt]
      · exact ((List.Perm.append_left _ (hf _)).trans
          (by rw [List.take_append_drop])).trans (List.Perm.refl _)
      · intro l hl
        rw [hso] at hl
        exact Option.noConfusion hl
      · intro _ i hi
        have hi' : i < ((List.range q.items.length).take (p + 1)).length := by
          simp [List.length_take]
          omega
        rw [List.get?_append hi', List.get?_take (by omega : i < p + 1),
          List.get?_range (by omega : i < q.items.length)]
    · -- an existing permutation: only the suffix after p is shuffled
      have hlen : l.length = q.items.length := by
        simpa using hl.length_eq
      refine ⟨l.take (p + 1) ++ f (l.drop (p + 1)), ?_, ?_, ?_, ?_⟩
      · simp [shuffle, hcur, hso, if_pos hlt]
      · exact (List.Perm.append_left _ (hf _)).trans (by rw [List.take_append_drop]; exact hl)
      · intro l0 hl0 i hi
        rw [hso] at hl0
        rw [← Option.some.inj hl0]
        have hi' : i < (l.take (p + 1)).length := by
          simp [List.length_take]
          omega
        rw [List.get?_append hi', List.get?_take (by omega : i < p + 1)]
      · intro hnone
        rw [hso] at hnone
        exact Option.noConfusion hnone
  · intro p hcur hp
    simp [shuffle, hcur, show ¬ (p < q.items.length - 1) by omega]

/-- Witness for C5: a fresh three-item queue (playing at position 0, no
permutation yet) shuffled with the identity outcome. -/
theorem c5_witness :
    ((fromItems [5, 6, 7] : OldQueue ℕ).current_item = some 0 ∧
      (fromItems [5, 6, 7] : OldQueue ℕ).shuffle_order = none ∧ 0 + 1 < 3) ∧
    (∃ l', (shuffle id (fromItems [5, 6, 7] : OldQueue ℕ)).shuffle_order = some l' ∧
      List.Perm l' (List.range 3) ∧
      (∀ l, (fromItems [5, 6, 7] : OldQueue ℕ).shuffle_order = some l →
        ∀ i, i ≤ 0 → l'.get? i = l.get? i) ∧
      ((fromItems [5, 6, 7] : OldQueue ℕ).shuffle_order = none →
        ∀ i, i ≤ 0 → l'.get? i = some i)) :=
  ⟨⟨rfl, rfl, by decide⟩,
    (c5_shuffle_bijection (fromItems [5, 6, 7]) id (fun xs => List.Perm.refl xs)
      (Or.inl rfl)).2.1 0 rfl (by decide)⟩

/-- The run `OldQueue::from(vec![]); shuffle(); queue(9)`: a stopped queue that
ends up with store length 1 but a stale permutation `[]`. -/
def c7_state : OldQueue ℕ :=
  queue id 9 (shuffle id (fromItems ([] : List ℕ)))

/-- Counterexample to claim C7 as stated.  After the public operations
`from(vec![]); shuffle(); queue(9)`, a shuffle order is present but it is not
a permutation of `0..n` for the current store length `n = 1`: `queue` inserts
the new raw index and reshuffles only when the queue is playing, so on a
stopped queue the permutation is left behind unchanged. -/
theorem c7_counterexample_stopped_append :
    Reachable c7_state ∧ is_shuffled c7_state = true ∧ c7_state.shuffle_order = some [] ∧
    c7_state.items.length = 1 ∧
    ¬ ∃ l, c7_state.shuffle_order = some l ∧ List.Perm l (List.range c7_state.items.length) := by
  refine ⟨Reachable.queue id 9 (Reachable.shuffle id (Reachable.init [])), rfl, rfl, rfl, ?_⟩
  rintro ⟨l, hl, hp⟩
  rw [← Option.some.inj hl] at hp
  exact absurd hp.length_eq (by decide)

/-- Claim C7, amended.  A shuffle order is present exactly when the queue is
shuffled (`is_shuffled` is presence of the order).  Appending an item via
`queue` while a permutation is present inserts the new raw index into the
permutation and reshuffles the unplayed suffix ONLY when the queue is playing,
and then the result is again a permutation of `0..n` for the new store length;
when the queue is stopped (and also when playing unshuffled), `queue` appends
to the store and leaves the shuffle order unchanged. -/
theorem c7_queue_reshuffles_only_when_playing (q : OldQueue α) (f : List ℕ → List ℕ)
    (item : α) (hf : ∀ xs, List.Perm (f xs) xs) :
    (is_shuffled q = true ↔ q.shuffle_order ≠ none) ∧
    (∀ p l, q.current_item = some p → q.shuffle_order = some l →
      List.Perm l (List.range q.items.length) → p < q.items.length →
      (queue f item q).items = q.items ++ [item] ∧
      (queue f item q).shuffle_order =
        some ((l ++ [l.length]).take (p + 1) ++ f ((l ++ [l.length]).drop (p + 1))) ∧
      ∃ l', (queue f item q).shuffle_order = some l' ∧
        List.Perm l' (List.range (q.items.length + 1)) ∧
        l'.take (p + 1) = (l ++ [l.length]).take (p + 1)) ∧
    (∀ p, q.current_item = some p → q.shuffle_order = none →
      (queue f item q).items = q.items ++ [item] ∧
      (queue f item q).shuffle_order = none) ∧
    (q.current_item = none →
      (queue f item q).items = q.items ++ [item] ∧
      (queue f item q).shuffle_order = q.shuffle_order) := by
  refine ⟨?_, ?_, ?_, ?_⟩
  · simp [is_shuffled, Option.isSome_iff_ne_none]
  · intro p l hcur hso hl hp
    have hlen : l.length = q.items.length := by
      simpa using hl.length_eq
    have hlt : p < (q.items ++ [item]).length - 1 := by
      simp
      omega
    have heq : (queue f item q).shuffle_order =
        some ((l ++ [l.length]).take (p + 1) ++ f ((l ++ [l.length]).drop (p + 1))) := by
      simp only [queue, hcur, hso, shuffle, if_pos hlt]
    have htk : ((l ++ [l.length]).take (p + 1)).length = p + 1 := by
      simp [List.length_take]
      omega
    refine ⟨?_, heq, _, heq, ?_, List.take_left' htk⟩
    · simp [queue, hcur, hso, shuffle, hp]
    · have h1 : List.Perm ((l ++ [l.length]).take (p + 1) ++ f ((l ++ [l.length]).drop (p + 1)))
          (l ++ [l.length]) :=
        (List.Perm.append_left _ (hf _)).trans (by rw [List.take_append_drop])
      have h2 : List.Perm (l ++ [l.length]) (List.range (q.items.length + 1)) := by
        rw [List.range_succ, hlen]
        exact hl.append_right [q.items.length]
      exact h1.trans h2
  · intro p hcur hso
    constructor
    · simp [queue, hcur, hso]
    · simp [queue, hcur, hso]
  · intro hcur
    constructor
    · simp [queue, hcur]
    · simp [queue, hcur]

/-- A playing, shuffled two-item queue used as the concrete input of the C7
witness. -/
def c7_play_state : OldQueue ℕ :=
  { fromItems [10, 20] with shuffle_order := some [1, 0] }

/-- Witness for the amended C7 at `c7_play_state`: appending while playing and
shuffled yields permutation `take 1 [1,0,2] ++ f (drop 1 [1,0,2])`, a
permutation of `0..3` with position 0 unchanged. -/
theorem c7_queue_witness :
    (c7_play_state.current_item = some 0 ∧ c7_play_state.shuffle_order = some [1, 0] ∧
      0 < c7_play_state.items.length) ∧
    ((queue id 30 c7_play_state).items = c7_play_state.items ++ [30] ∧
      (queue id 30 c7_play_state).shuffle_order =
        some (([1, 0] ++ [(2 : ℕ)]).take (0 + 1) ++ id (([1, 0] ++ [(2 : ℕ)]).drop (0 + 1))) ∧
      ∃ l', (queue id 30 c7_play_state).shuffle_order = some l' ∧
        List.Perm l' (List.range (c7_play_state.items.length + 1)) ∧
        l'.take (0 + 1) = ([1, 0] ++ [(2 : ℕ)]).take (0 + 1)) :=
  ⟨⟨rfl, rfl, by decide⟩,
    (c7_queue_reshuffles_only_when_playing c7_play_state id 30
      (fun xs => List.Perm.refl xs)).2.1 0 [1, 0] rfl rfl (by decide) (by decide)⟩

/-- Claim C3.  From any interior live-edge position `p` (history coherent with
the live edge, permutation — when present — a bijection of `0..n`), `next`
then `previous` both return `Ok`; `get_current_item` afterwards returns the
same item as before the pair; the item store and the permutation are unchanged
and the history has grown by exactly the entry logged for position `p`
(`perm[p]` when shuffled, `p` otherwise). -/
theorem c3_next_previous_roundtrip (q : OldQueue α) (p : ℕ)
    (hcur : q.current_item = some p) (hhist : q.history_index = none)
    (hlen : q.history.length = p) (hp : p + 1 < q.items.length)
    (hperm : q.shuffle_order = none ∨
      ∃ l, q.shuffle_order = some l ∧ List.Perm l (List.range q.items.length)) :
    ∃ q₁ q₂ item v,
      next q = some (Except.ok (), q₁) ∧
      previous q₁ = (Except.ok (), q₂) ∧
      get_current_item q = some (Except.ok item) ∧
      get_current_item q₂ = some (Except.ok item) ∧
      q₂.items = q.items ∧ q₂.shuffle_order = q.shuffle_order ∧
      q₂.history = q.history ++ [v] ∧
      ((q.shuffle_order = none ∧ v = p) ∨
        ∃ l, q.shuffle_order = some l ∧ l.get? p = some v) := by
  have hplt : p < q.items.length - 1 := by omega
  rcases hperm with hso | ⟨l, hso, hl⟩
  · -- unshuffled: the logged entry is p itself
    obtain ⟨item, hitem⟩ : ∃ a, q.items.get? p = some a :=
      ⟨_, List.get?_eq_get (by omega)⟩
    have hitem2 : q.items[p]? = some item := by
      rw [← List.get?_eq_getElem?]
      exact hitem
    have hcat : (q.history ++ [p])[p]? = some p := by
      rw [← List.get?_eq_getElem?, ← hlen]
      exact List.get?_concat_length _ _
    refine ⟨{ q with history := q.history ++ [p], current_item := some (p + 1) },
      { q with history := q.history ++ [p], current_item := some (p + 1), history_index := some p },
      item, p, ?_, ?_, ?_, ?_, rfl, rfl, rfl, Or.inl ⟨hso, rfl⟩⟩
    · simp only [next, hcur, hhist, hso, if_pos hplt]
    · simp [previous, hhist]
    · simp [get_current_item, hcur, hhist, hso, hitem2]
    · simp [get_current_item, hcat, hitem2]
  · -- shuffled: the logged entry is perm[p]
    have hllen : l.length = q.items.length := by
      simpa using hl.length_eq
    obtain ⟨v, hv⟩ : ∃ v, l.get? p = some v :=
      ⟨_, List.get?_eq_get (by omega)⟩
    have hvlt : v < q.items.length := by
      have hmem : v ∈ l := List.get?_mem hv
      have : v ∈ List.range q.items.length := hl.mem_iff.mp hmem
      simpa using this
    obtain ⟨item, hitem⟩ : ∃ a, q.items.get? v = some a :=
      ⟨_, List.get?_eq_get hvlt⟩
    have hitem2 : q.items[v]? = some item := by
      rw [← List.get?_eq_getElem?]
      exact hitem
    have hv2 : l[p]? = some v := by
      rw [← List.get?_eq_getElem?]
      exact hv
    have hcat : (q.history ++ [v])[p]? = some v := by
      rw [← List.get?_eq_getElem?, ← hlen]
      exact List.get?_concat_length _ _
    refine ⟨{ q with history := q.history ++ [v], current_item := some (p + 1) },
      { q with history := q.history ++ [v], current_item := some (p + 1), history_index := some p },
      item, v, ?_, ?_, ?_, ?_, rfl, rfl, rfl, Or.inr ⟨l, hso, hv⟩⟩
    · simp only [next, hcur, hhist, hso, hv, if_pos hplt]
    · simp [previous, hhist]
    · simp [get_current_item, hcur, hhist, hso, hv2, hitem2]
    · simp [get_current_item, hcat, hitem2]

/-- Witness for C3: the fresh two-item queue at interior position 0. -/
theorem c3_witness :
    ((fromItems [10, 20] : OldQueue ℕ).current_item = some 0 ∧
      (fromItems [10, 20] : OldQueue ℕ).history.length = 0 ∧ 0 + 1 < 2) ∧
    (∃ q₁ q₂ item v,
      next (fromItems [10, 20] : OldQueue ℕ) = some (Except.ok (), q₁) ∧
      previous q₁ = (Except.ok (), q₂) ∧
      get_current_item (fromItems [10, 20] : OldQueue ℕ) = some (Except.ok item) ∧
      get_current_item q₂ = some (Except.ok item) ∧
      q₂.items = (fromItems [10, 20] : OldQueue ℕ).items ∧
      q₂.shuffle_order = (fromItems [10, 20] : OldQueue ℕ).shuffle_order ∧
      q₂.history = (fromItems [10, 20] : OldQueue ℕ).history ++ [v] ∧
      (((fromItems [10, 20] : OldQueue ℕ).shuffle_order = none ∧ v = 0) ∨
        ∃ l, (fromItems [10, 20] : OldQueue ℕ).shuffle_order = some l ∧ l.get? 0 = some v)) :=
  ⟨⟨rfl, rfl, by decide⟩,
    c3_next_previous_roundtrip (fromItems [10, 20]) 0 rfl rfl rfl (by decide) (Or.inl rfl)⟩

/-- Walking back through the history: from `history_index = some j` (while
playing), `j` calls of `previous` all succeed and land on `history_index =
some 0`, changing nothing else. -/
theorem repeatPrev_of_history_index (j : ℕ) :
    ∀ (q : OldQueue α) (c : ℕ), q.current_item = some c → q.history_index = some j →
      repeatPrev j q = some { q with history_index := some 0 } := by
  induction j with
  | zero =>
    intro q c hc hj
    show some q = some { q with history_index := some 0 }
    rw [← hj]
  | succ j ih =>
    intro q c hc hj
    have hstep : repeatPrev (j + 1) q = repeatPrev j { q with history_index := some j } := by
      simp [repeatPrev, previous, hc, hj]
    rw [hstep]
    exact ih { q with history_index := some j } c hc rfl

/-- Advancing at the live edge: `k` calls of `next` from position `c` (history
cursor off, permutation — when present — as long as the store) all succeed and
land on position `c + k`, preserving the store and the permutation. -/
theorem repeatNext_advance (k : ℕ) :
    ∀ (q : OldQueue α) (c : ℕ), q.current_item = some c → q.history_index = none →
      c + k < q.items.length →
      (q.shuffle_order = none ∨ ∃ l, q.shuffle_order = some l ∧ l.length = q.items.length) →
      ∃ q', repeatNext k q = some q' ∧ q'.current_item = some (c + k) ∧
        q'.history_index = none ∧ q'.items = q.items ∧ q'.shuffle_order = q.shuffle_order := by
  induction k with
  | zero =>
    intro q c hc hh _ _
    exact ⟨q, rfl, by simpa using hc, hh, rfl, rfl⟩
  | succ k ih =>
    intro q c hc hh hbound hperm
    have hlt : c < q.items.length - 1 := by omega
    have hadd : c + 1 + k = c + (k + 1) := by omega
    rcases hperm with hso | ⟨l, hso, hlen⟩
    · have hstep : repeatNext (k + 1) q =
          repeatNext k { q with history := q.history ++ [c], current_item := some (c + 1) } := by
        simp [repeatNext, next, hc, hh, hso, hlt]
      obtain ⟨q', h1, h2, h3, h4, h5⟩ :=
        ih { q with history := q.history ++ [c], current_item := some (c + 1) } (c + 1)
          rfl hh (by simp; omega) (Or.inl hso)
      exact ⟨q', hstep.trans h1, by rw [h2, hadd], h3, h4, h5⟩
    · obtain ⟨v, hv⟩ : ∃ v, l.get? c = some v :=
        ⟨_, List.get?_eq_get (by omega)⟩
      have hv2 : l[c]? = some v := by
        rw [← List.get?_eq_getElem?]
        exact hv
      have hstep : repeatNext (k + 1) q =
          repeatNext k { q with history := q.history ++ [v], current_item := some (c + 1) } := by
        simp [repeatNext, next, hc, hh, hso, hlt, hv2]
      obtain ⟨q', h1, h2, h3, h4, h5⟩ :=
        ih { q with history := q.history ++ [v], current_item := some (c + 1) } (c + 1)
          rfl hh (by simp; omega) (Or.inr ⟨l, hso, by simpa using hlen⟩)
      exact ⟨q', hstep.trans h1, by rw [h2, hadd], h3, h4, h5⟩

/-- Claim C2.  On an `n`-item queue (`n ≥ 1`, unshuffled or with a fixed
length-`n` permutation, no repeat mode, history cursor off):  from the live
edge at position `n - 1`, `n - 1` calls of `previous` all succeed and the
`n`-th fails `ReachedBeginning`; from the live edge at position 0, `n - 1`
calls of `next` all succeed and the `n`-th fails `ReachedEnd` (leaving the
state unchanged). -/
theorem c2_boundary_errors (q : OldQueue α) (n : ℕ) (hn : 1 ≤ n)
    (hlen : q.items.length = n) (hrep : q.repeat_status = none)
    (hperm : q.shuffle_order = none ∨ ∃ l, q.shuffle_order = some l ∧ l.length = n)
    (hhist : q.history_index = none) :
    (q.current_item = some (n - 1) →
      ∃ q', repeatPrev (n - 1) q = some q' ∧
        previous q' = (Except.error QueueError.ReachedBeginning, q')) ∧
    (q.current_item = some 0 →
      ∃ q', repeatNext (n - 1) q = some q' ∧
        next q' = some (Except.error QueueError.ReachedEnd, q')) := by
  constructor
  · intro hcur
    match n, hn with
    | 1, _ =>
      refine ⟨q, rfl, ?_⟩
      simp only [previous, hcur, hhist]
      simp
    | (m + 2), _ =>
      have hstep : repeatPrev (m + 1) q =
          repeatPrev m { q with history_index := some m } := by
        have h1 : previous q = (Except.ok (), { q with history_index := some m }) := by
          simp [previous, hcur, hhist]
        simp [repeatPrev, h1]
      refine ⟨{ q with history_index := some 0 }, ?_, ?_⟩
      · have hred : m + 2 - 1 = m + 1 := rfl
        rw [hred, hstep]
        exact repeatPrev_of_history_index m { q with history_index := some m } (m + 2 - 1)
          hcur rfl
      · simp [previous, hcur]
  · intro hcur
    obtain ⟨q', h1, h2, h3, h4, h5⟩ :=
      repeatNext_advance (n - 1) q 0 hcur hhist (by omega)
        (by rw [hlen]; exact hperm)
    have hq'len : q'.items.length = n := by rw [h4, hlen]
    refine ⟨q', h1, ?_⟩
    have hnolt : ¬ (n - 1 < q'.items.length - 1) := by
      rw [hq'len]
      omega
    have hadd : 0 + (n - 1) = n - 1 := by omega
    rw [hadd] at h2
    simp only [next, h2, h3, if_neg hnolt]

/-- Witness for C2 (the `next` direction) at the fresh two-item queue: one
successful `next`, then `ReachedEnd`. -/
theorem c2_witness :
    (1 ≤ 2 ∧ (fromItems [10, 20] : OldQueue ℕ).items.length = 2 ∧
      (fromItems [10, 20] : OldQueue ℕ).current_item = some 0) ∧
    (∃ q', repeatNext (2 - 1) (fromItems [10, 20] : OldQueue ℕ) = some q' ∧
      next q' = some (Except.error QueueError.ReachedEnd, q')) :=
  ⟨⟨by decide, rfl, rfl⟩,
    (c2_boundary_errors (fromItems [10, 20]) 2 (by decide) rfl rfl (Or.inl rfl) rfl).2 rfl⟩

end MusicQueue
